import Mathlib

/-!
Verification of the n-body simulation core (force computation and leapfrog
integration) against its natural-language specification.

The Rust source operates on `f64` and `glam::DVec3`; here the arithmetic is
idealised to exact real arithmetic over `ℝ`, with 3-vectors as a structure of
three real components.  Rayon's parallel fan-out over bodies (exclusive
per-body writes, read-only shared input) is modelled as `List.map`; the
sequential accumulation inside one body's loop is `List.foldl`, in source
order.
-/

noncomputable section

namespace NBody

/-- Gravitational constant, from the source: `const G: f64 = 6.67430e-11`. -/
def G : ℝ := 6.67430e-11

/-- A 3-vector of reals, modelling `glam::DVec3`. -/
@[ext]
structure Vec3 where
  x : ℝ
  y : ℝ
  z : ℝ

instance : Zero Vec3 := ⟨⟨0, 0, 0⟩⟩

instance : Add Vec3 := ⟨fun a b => ⟨a.x + b.x, a.y + b.y, a.z + b.z⟩⟩

instance : Sub Vec3 := ⟨fun a b => ⟨a.x - b.x, a.y - b.y, a.z - b.z⟩⟩

instance : Neg Vec3 := ⟨fun a => ⟨-a.x, -a.y, -a.z⟩⟩

/-- Vector-times-scalar, modelling `DVec3 * f64`. -/
instance : HMul Vec3 ℝ Vec3 := ⟨fun v c => ⟨v.x * c, v.y * c, v.z * c⟩⟩

/-- Scalar-times-vector (used only to state Newton's-third-law style facts). -/
instance : SMul ℝ Vec3 := ⟨fun c v => ⟨c * v.x, c * v.y, c * v.z⟩⟩

instance : DecidableEq Vec3 := fun a b => Classical.propDecidable (a = b)

namespace Vec3

/-- `DVec3::length_squared`: the dot product of the vector with itself. -/
def length_squared (v : Vec3) : ℝ := v.x * v.x + v.y * v.y + v.z * v.z

/-- `DVec3::length`: square root of the squared length. -/
def length (v : Vec3) : ℝ := Real.sqrt v.length_squared

/-- `DVec3::normalize`: the vector divided by its length.  (In `glam` a zero
vector normalizes to NaN; in this exact model division by zero yields the
zero vector.  The force loop never normalizes a zero vector, see the
reachability theorem for C10.) -/
def normalize (v : Vec3) : Vec3 := v * (1 / v.length)

end Vec3

/-- One point mass, modelling the `Body` struct of the source. -/
structure Body where
  mass : ℝ
  position : Vec3
  velocity : Vec3
  acceleration : Vec3

/-- `Body::new`: acceleration starts at `DVec3::ZERO`. -/
def Body.new (mass : ℝ) (position velocity : Vec3) : Body :=
  { mass := mass, position := position, velocity := velocity, acceleration := 0 }

/-- The body of the inner `for (pos_j, mass_j) in &positions_masses` loop of
`update_accelerations`, as a fold step: skip the entry when its position
equals `p` exactly, otherwise add the softened pairwise contribution. -/
def accStep (p : Vec3) (softening_sq : ℝ) (total_acceleration : Vec3)
    (pm : Vec3 × ℝ) : Vec3 :=
  if p = pm.1 then total_acceleration
  else
    let direction := pm.1 - p
    let distance_sq := direction.length_squared
    let force_magnitude := (G * pm.2) / (distance_sq + softening_sq)
    total_acceleration + direction.normalize * force_magnitude

/-- `update_accelerations` from the source: snapshot `(position, mass)` of all
bodies, then for each body accumulate the softened contribution of every
snapshot entry whose position differs from its own, and overwrite its
`acceleration` field with the total. -/
def update_accelerations (bodies : List Body) (softening_factor : ℝ) :
    List Body :=
  let softening_sq := softening_factor * softening_factor
  let positions_masses := bodies.map fun b => (b.position, b.mass)
  bodies.map fun body_i =>
    { body_i with
        acceleration := positions_masses.foldl (accStep body_i.position softening_sq) 0 }

/-- `accStep` with the normalization function abstracted, used to show that
the value of `normalize` at the zero vector is never consulted (C10). -/
def accStepGen (nrm : Vec3 → Vec3) (p : Vec3) (softening_sq : ℝ)
    (total_acceleration : Vec3) (pm : Vec3 × ℝ) : Vec3 :=
  if p = pm.1 then total_acceleration
  else
    let direction := pm.1 - p
    let distance_sq := direction.length_squared
    let force_magnitude := (G * pm.2) / (distance_sq + softening_sq)
    total_acceleration + nrm direction * force_magnitude

/-- `update_accelerations` with the normalization function abstracted. -/
def update_accelerations_gen (nrm : Vec3 → Vec3) (bodies : List Body)
    (softening_factor : ℝ) : List Body :=
  let softening_sq := softening_factor * softening_factor
  let positions_masses := bodies.map fun b => (b.position, b.mass)
  bodies.map fun body_i =>
    { body_i with
        acceleration := positions_masses.foldl (accStepGen nrm body_i.position softening_sq) 0 }

/-- The first half-kick / second half-kick loop of the main loop (and of
`leapfrog_integrator`): `velocity += acceleration * (dt / 2.0)` for every
body. -/
def kickHalf (dt : ℝ) (bodies : List Body) : List Body :=
  bodies.map fun body => { body with velocity := body.velocity + body.acceleration * (dt / 2) }

/-- The drift loop: `position += velocity * dt` for every body. -/
def drift (dt : ℝ) (bodies : List Body) : List Body :=
  bodies.map fun body => { body with position := body.position + body.velocity * dt }

/-- One iteration of the main loop: half-kick, drift, refresh accelerations,
half-kick, written out in source order. -/
def stepOnce (dt softening_factor : ℝ) (bodies : List Body) : List Body :=
  let kicked := bodies.map fun body =>
    { body with velocity := body.velocity + body.acceleration * (dt / 2) }
  let drifted := kicked.map fun body =>
    { body with position := body.position + body.velocity * dt }
  let refreshed := update_accelerations drifted softening_factor
  refreshed.map fun body =>
    { body with velocity := body.velocity + body.acceleration * (dt / 2) }

/-- The state of the body set after the initial `update_accelerations` call
and `n` iterations of the main loop of `main`. -/
def simulate (bodies : List Body) (dt softening_factor : ℝ) : ℕ → List Body
  | 0 => update_accelerations bodies softening_factor
  | n + 1 => stepOnce dt softening_factor (simulate bodies dt softening_factor n)

/-- The acceleration formula actually realised by the source code, written
independently of the fold: the sum, over snapshot entries whose position
differs from `p`, of `G·m_j·(p_j − p) / (|p_j − p| · (|p_j − p|² + ε²))`. -/
def accelFromCodeFormula (p : Vec3) (pm : List (Vec3 × ℝ)) (ε : ℝ) : Vec3 :=
  (pm.map fun e =>
    if p = e.1 then (0 : Vec3)
    else (e.1 - p) *
      ((G * e.2) / ((e.1 - p).length * ((e.1 - p).length_squared + ε * ε)))).sum

/-- The acceleration formula as the spec's words state it (claim C1): the sum
over the other entries of `G·m_j·(p_j − p) / (|p_j − p|² + ε²)^(3/2)`, the
three-halves power written as `s · √s`. -/
def accelFromSpecFormula (p : Vec3) (pm : List (Vec3 × ℝ)) (ε : ℝ) : Vec3 :=
  (pm.map fun e =>
    if p = e.1 then (0 : Vec3)
    else (e.1 - p) *
      ((G * e.2) /
        (((e.1 - p).length_squared + ε * ε) *
          Real.sqrt ((e.1 - p).length_squared + ε * ε)))).sum

/-- A unit-mass body at the origin, at rest (used as a concrete test input). -/
def bodyA : Body := Body.new 1 ⟨0, 0, 0⟩ 0

/-- A unit-mass body at `(1, 0, 0)`, at rest. -/
def bodyB : Body := Body.new 1 ⟨1, 0, 0⟩ 0

/-- A mass-2 body at `(1, 0, 0)`, at rest. -/
def bodyC : Body := Body.new 2 ⟨1, 0, 0⟩ 0

/-- A mass-3 body at the origin, at rest: a body distinct from `bodyA` that
occupies exactly the same point. -/
def bodyE : Body := Body.new 3 ⟨0, 0, 0⟩ 0

namespace Vec3

theorem add_def (a b : Vec3) : a + b = ⟨a.x + b.x, a.y + b.y, a.z + b.z⟩ := rfl

theorem sub_def (a b : Vec3) : a - b = ⟨a.x - b.x, a.y - b.y, a.z - b.z⟩ := rfl

theorem mul_def (v : Vec3) (c : ℝ) : v * c = ⟨v.x * c, v.y * c, v.z * c⟩ := rfl

theorem smul_def (c : ℝ) (v : Vec3) : c • v = ⟨c * v.x, c * v.y, c * v.z⟩ := rfl

theorem neg_def (v : Vec3) : -v = ⟨-v.x, -v.y, -v.z⟩ := rfl

theorem zero_def : (0 : Vec3) = ⟨0, 0, 0⟩ := rfl

theorem mul_mul (v : Vec3) (a b : ℝ) : v * a * b = v * (a * b) := by
  simp [mul_def, mul_assoc]

theorem zero_mul' (c : ℝ) : (0 : Vec3) * c = 0 := by
  simp [mul_def, zero_def]

theorem add_zero' (v : Vec3) : v + 0 = v := by
  simp [add_def, zero_def]

theorem zero_add' (v : Vec3) : (0 : Vec3) + v = v := by
  simp [add_def, zero_def]

theorem length_squared_nonneg (v : Vec3) : 0 ≤ v.length_squared := by
  have hx : 0 ≤ v.x * v.x := mul_self_nonneg _
  have hy : 0 ≤ v.y * v.y := mul_self_nonneg _
  have hz : 0 ≤ v.z * v.z := mul_self_nonneg _
  unfold length_squared; linarith

theorem length_squared_eq_zero_iff (v : Vec3) : v.length_squared = 0 ↔ v = 0 := by
  unfold length_squared
  constructor
  · intro h
    have hx : 0 ≤ v.x * v.x := mul_self_nonneg _
    have hy : 0 ≤ v.y * v.y := mul_self_nonneg _
    have hz : 0 ≤ v.z * v.z := mul_self_nonneg _
    have hx0 : v.x * v.x = 0 := by linarith
    have hy0 : v.y * v.y = 0 := by linarith
    have hz0 : v.z * v.z = 0 := by linarith
    ext <;> simp_all [mul_self_eq_zero, zero_def]
  · intro h; subst h; simp [zero_def]

theorem length_squared_pos (v : Vec3) (h : v ≠ 0) : 0 < v.length_squared :=
  lt_of_le_of_ne (length_squared_nonneg v)
    (fun h0 => h ((length_squared_eq_zero_iff v).mp h0.symm))

theorem length_nonneg (v : Vec3) : 0 ≤ v.length := Real.sqrt_nonneg _

theorem length_pos (v : Vec3) (h : v ≠ 0) : 0 < v.length :=
  Real.sqrt_pos.mpr (length_squared_pos v h)

theorem sq_length (v : Vec3) : v.length * v.length = v.length_squared :=
  Real.mul_self_sqrt (length_squared_nonneg v)

theorem length_mul (v : Vec3) (c : ℝ) : (v * c).length = v.length * |c| := by
  have h : (v * c).length_squared = v.length_squared * (c * c) := by
    simp only [mul_def, length_squared]
    ring
  unfold length
  rw [h, Real.sqrt_mul (length_squared_nonneg v), Real.sqrt_mul_self_eq_abs]

theorem normalize_length (v : Vec3) (h : v ≠ 0) : v.normalize.length = 1 := by
  unfold normalize
  rw [length_mul]
  have hl : 0 < v.length := length_pos v h
  rw [abs_of_pos (one_div_pos.mpr hl)]
  field_simp

theorem normalize_ne_zero (v : Vec3) (h : v ≠ 0) : v.normalize ≠ 0 := by
  intro h0
  have := normalize_length v h
  rw [h0] at this
  unfold length length_squared at this
  simp [zero_def] at this

theorem add_assoc' (a b c : Vec3) : a + b + c = a + (b + c) := by
  simp only [add_def]
  ext <;> ring

theorem add_left_cancel' (a v : Vec3) (h : a + v = a) : v = 0 := by
  simp only [add_def] at h
  have hx := congrArg x h
  have hy := congrArg y h
  have hz := congrArg z h
  simp only at hx hy hz
  ext <;> simp [zero_def] <;> linarith

theorem mul_ne_zero' (v : Vec3) (c : ℝ) (hv : v ≠ 0) (hc : c ≠ 0) :
    v * c ≠ 0 := by
  intro h0
  apply hv
  simp only [mul_def] at h0
  have hx := congrArg x h0
  have hy := congrArg y h0
  have hz := congrArg z h0
  simp only [zero_def] at hx hy hz
  ext <;> simp [zero_def]
  · exact (mul_eq_zero.mp hx).resolve_right hc
  · exact (mul_eq_zero.mp hy).resolve_right hc
  · exact (mul_eq_zero.mp hz).resolve_right hc

theorem sub_eq_zero_iff' (a b : Vec3) : a - b = 0 ↔ a = b := by
  constructor
  · intro h
    have hx := congrArg x h
    have hy := congrArg y h
    have hz := congrArg z h
    simp only [sub_def, zero_def] at hx hy hz
    ext <;> linarith
  · intro h; subst h; simp only [sub_def, zero_def]; ext <;> simp

theorem zero_x : (0 : Vec3).x = 0 := rfl

theorem zero_y : (0 : Vec3).y = 0 := rfl

theorem zero_z : (0 : Vec3).z = 0 := rfl

theorem sum_cons' (a : Vec3) (l : List Vec3) : (a :: l).sum = a + l.sum := rfl

theorem sum_nil' : ([] : List Vec3).sum = 0 := rfl

end Vec3

/-- The gravitational constant is positive. -/
theorem G_pos : 0 < G := by unfold G; norm_num

/-- The single per-pair contribution term of the inner loop, rewritten from
`normalize(direction) * magnitude` into vector-over-scalars form: the two are
equal as functions of the pair, arbitrary accumulator and softening square. -/
theorem accStep_eq_codeTerm (p : Vec3) (s : ℝ) (acc : Vec3) (e : Vec3 × ℝ) :
    accStep p s acc e =
      acc + (if p = e.1 then (0 : Vec3)
        else (e.1 - p) *
          ((G * e.2) / ((e.1 - p).length * ((e.1 - p).length_squared + s)))) := by
  by_cases h : p = e.1
  · simp only [accStep, if_pos h, Vec3.add_zero']
  · simp only [accStep, Vec3.normalize, if_neg h]
    congr 1
    rw [Vec3.mul_mul]
    congr 1
    rw [one_div_mul_eq_div, div_div,
      mul_comm ((e.1 - p).length_squared + s) (e.1 - p).length]

/-- The inner loop's fold equals the initial accumulator plus the sum of the
per-entry contribution terms. -/
theorem foldl_accStep (p : Vec3) (s : ℝ) :
    ∀ (l : List (Vec3 × ℝ)) (init : Vec3),
      l.foldl (accStep p s) init =
        init + (l.map fun e =>
          if p = e.1 then (0 : Vec3)
          else (e.1 - p) *
            ((G * e.2) / ((e.1 - p).length * ((e.1 - p).length_squared + s)))).sum
  | [], init => by
      show init = init + 0
      rw [Vec3.add_zero']
  | e :: l, init => by
      show (l.foldl (accStep p s) (accStep p s init e)) = _
      rw [List.map_cons, Vec3.sum_cons', foldl_accStep p s l (accStep p s init e),
        accStep_eq_codeTerm, Vec3.add_assoc']

/-- Evaluation of `update_accelerations` on the two unit masses at distance 1
with softening factor 1: each body is pulled toward the other with magnitude
`G / (1 + 1) = G/2`. -/
theorem update_demoAB :
    (update_accelerations [bodyA, bodyB] 1).map Body.acceleration =
      [⟨G / 2, 0, 0⟩, ⟨-(G / 2), 0, 0⟩] := by
  norm_num [update_accelerations, bodyA, bodyB, Body.new, accStep,
    Vec3.normalize, Vec3.length, Vec3.length_squared, Vec3.sub_def,
    Vec3.mul_def, Vec3.add_def, Vec3.zero_x, Vec3.zero_y, Vec3.zero_z,
    Vec3.mk.injEq, Real.sqrt_one]

/-- Evaluation of the spec's three-halves-power formula at the same input:
the magnitude is `G / ((1 + 1)·√(1 + 1)) = G / (2√2)`. -/
theorem specFormula_demoA :
    accelFromSpecFormula ⟨0, 0, 0⟩ [(⟨0, 0, 0⟩, 1), (⟨1, 0, 0⟩, 1)] 1 =
      ⟨G / (2 * Real.sqrt 2), 0, 0⟩ := by
  norm_num [accelFromSpecFormula, Vec3.length, Vec3.length_squared,
    Vec3.sub_def, Vec3.mul_def, Vec3.add_def, Vec3.zero_x, Vec3.zero_y,
    Vec3.zero_z, Vec3.mk.injEq, Vec3.sum_cons', Vec3.sum_nil']

/-- C1 counterexample: for the two-body set `[bodyA, bodyB]` with softening
factor `ε = 1`, body 0's acceleration after `update_accelerations` does NOT
equal the spec's `Σ G·m_j·(p_j − p_i)/(|p_j − p_i|² + ε²)^(3/2)`: the code
yields x-component `G/2`, the spec formula `G/(2√2)`. -/
theorem C1_counterexample :
    ((update_accelerations [bodyA, bodyB] 1).map Body.acceleration).getD 0 0 ≠
      accelFromSpecFormula ⟨0, 0, 0⟩ [(⟨0, 0, 0⟩, 1), (⟨1, 0, 0⟩, 1)] 1 := by
  rw [update_demoAB, specFormula_demoA]
  simp only [List.getD_cons_zero]
  intro h
  have hx := congrArg Vec3.x h
  simp only at hx
  have hs2 : (0 : ℝ) < Real.sqrt 2 := Real.sqrt_pos.mpr (by norm_num)
  have hG : (0 : ℝ) < G := G_pos
  rw [div_eq_div_iff (by norm_num) (by positivity)] at hx
  have h1 : Real.sqrt 2 = 1 := by
    have h2 : G * 2 * Real.sqrt 2 = G * 2 := by linarith [hx]
    have h3 : G * 2 ≠ 0 := by positivity
    calc Real.sqrt 2 = (G * 2 * Real.sqrt 2) / (G * 2) := by field_simp
    _ = 1 := by rw [h2]; field_simp
  have h4 : Real.sqrt 2 * Real.sqrt 2 = 2 :=
    Real.mul_self_sqrt (by norm_num)
  rw [h1] at h4
  norm_num at h4

/-- Claim C1 (amended): after `update_accelerations` with softening factor
`ε`, every body's acceleration equals the sum, over the snapshot entries
whose position differs from its own, of
`G·m_j·(p_j − p_i) / (|p_j − p_i| · (|p_j − p_i|² + ε²))` — the denominator
is `|p_j − p_i|·(|p_j − p_i|² + ε²)`, not the `(|p_j − p_i|² + ε²)^(3/2)` of
the original claim (the two agree exactly when `ε = 0`). -/
theorem C1_acceleration_eq_code_formula (bodies : List Body) (ε : ℝ) :
    (update_accelerations bodies ε).map Body.acceleration =
      bodies.map fun b =>
        accelFromCodeFormula b.position (bodies.map fun b' => (b'.position, b'.mass)) ε := by
  unfold update_accelerations accelFromCodeFormula
  rw [List.map_map]
  congr 1
  funext b
  show (bodies.map fun b' => (b'.position, b'.mass)).foldl (accStep b.position (ε * ε)) 0 = _
  rw [foldl_accStep, Vec3.zero_add']

/-- A snapshot entry located exactly at the accumulating body's own position
leaves the accumulator unchanged (the `continue` branch). -/
theorem accStep_self (p : Vec3) (s m : ℝ) (acc : Vec3) :
    accStep p s acc (p, m) = acc := by
  simp [accStep]

/-- A snapshot entry at a different position adds the softened contribution
`normalize(p_j − p) · G·m_j/(|p_j − p|² + s)`. -/
theorem accStep_other (p q : Vec3) (s m : ℝ) (acc : Vec3) (h : p ≠ q) :
    accStep p s acc (q, m) =
      acc + (q - p).normalize * ((G * m) / ((q - p).length_squared + s)) := by
  simp [accStep, if_neg h]

/-- Claim C2 (confirmed): for an evaluated pair (positions differ), the
contribution added to the accumulator is the unit direction vector scaled by
`G·m_j/(distance_sq + ε²)` (softening added to `distance_sq` before any
normalization), equivalently `G·m_j·(p_j − p_i)/(|p_j − p_i|·(|p_j − p_i|² + ε²))`,
and the normalized direction indeed has length 1. -/
theorem C2_pair_contribution (p : Vec3) (e : Vec3 × ℝ) (ε : ℝ) (acc : Vec3)
    (h : p ≠ e.1) :
    accStep p (ε * ε) acc e =
      acc + (e.1 - p).normalize * ((G * e.2) / ((e.1 - p).length_squared + ε * ε)) ∧
    accStep p (ε * ε) acc e =
      acc + (e.1 - p) * ((G * e.2) / ((e.1 - p).length * ((e.1 - p).length_squared + ε * ε))) ∧
    (e.1 - p).normalize.length = 1 := by
  have hd : e.1 - p ≠ 0 := fun h0 => h ((Vec3.sub_eq_zero_iff' e.1 p).mp h0).symm
  refine ⟨?_, ?_, Vec3.normalize_length _ hd⟩
  · simp only [accStep, if_neg h]
  · rw [accStep_eq_codeTerm, if_neg h]

/-- Witness for C2 at a concrete evaluated pair. -/
theorem C2_pair_contribution_witness :
    (⟨0, 0, 0⟩ : Vec3) ≠ ((⟨1, 0, 0⟩ : Vec3), (1 : ℝ)).1 ∧
    (accStep ⟨0, 0, 0⟩ (1 * 1) 0 (⟨1, 0, 0⟩, 1) =
        0 + ((⟨1, 0, 0⟩ : Vec3) - ⟨0, 0, 0⟩).normalize *
          ((G * ((⟨1, 0, 0⟩ : Vec3), (1 : ℝ)).2) /
            (((⟨1, 0, 0⟩ : Vec3) - ⟨0, 0, 0⟩).length_squared + 1 * 1)) ∧
      accStep ⟨0, 0, 0⟩ (1 * 1) 0 (⟨1, 0, 0⟩, 1) =
        0 + ((⟨1, 0, 0⟩ : Vec3) - ⟨0, 0, 0⟩) *
          ((G * ((⟨1, 0, 0⟩ : Vec3), (1 : ℝ)).2) /
            (((⟨1, 0, 0⟩ : Vec3) - ⟨0, 0, 0⟩).length *
              (((⟨1, 0, 0⟩ : Vec3) - ⟨0, 0, 0⟩).length_squared + 1 * 1))) ∧
      ((⟨1, 0, 0⟩ : Vec3) - ⟨0, 0, 0⟩).normalize.length = 1) :=
  ⟨by simp [Vec3.mk.injEq],
   C2_pair_contribution ⟨0, 0, 0⟩ (⟨1, 0, 0⟩, 1) 1 0 (by simp [Vec3.mk.injEq])⟩

/-- Claim C3 (confirmed): the inner loop skips an entry exactly when its
position equals the accumulating body's position: an entry at the body's own
position — be it the body itself or a distinct coincident body — can be
removed from the snapshot without changing the result, while an entry at a
different position with positive mass always changes the accumulator. -/
theorem C3_skip_by_position (b : Body) (ε m : ℝ) (l1 l2 : List (Vec3 × ℝ))
    (e : Vec3 × ℝ) :
    (l1 ++ (b.position, m) :: l2).foldl (accStep b.position (ε * ε)) 0 =
      (l1 ++ l2).foldl (accStep b.position (ε * ε)) 0 ∧
    (b.position ≠ e.1 → 0 < e.2 →
      ∀ acc : Vec3, accStep b.position (ε * ε) acc e ≠ acc) := by
  constructor
  · rw [List.foldl_append, List.foldl_append, List.foldl_cons, accStep_self]
  · intro hp hm acc h0
    have hd : e.1 - b.position ≠ 0 :=
      fun hh => hp ((Vec3.sub_eq_zero_iff' _ _).mp hh).symm
    rw [accStep_eq_codeTerm, if_neg hp] at h0
    have hzero := Vec3.add_left_cancel' acc _ h0
    have hl : 0 < (e.1 - b.position).length := Vec3.length_pos _ hd
    have hds : 0 < (e.1 - b.position).length_squared :=
      Vec3.length_squared_pos _ hd
    have hnum : G * e.2 ≠ 0 := ne_of_gt (mul_pos G_pos hm)
    have hden : (e.1 - b.position).length *
        ((e.1 - b.position).length_squared + ε * ε) ≠ 0 :=
      ne_of_gt (mul_pos hl (add_pos_of_pos_of_nonneg hds (mul_self_nonneg ε)))
    exact Vec3.mul_ne_zero' _ _ hd (div_ne_zero hnum hden) hzero

/-- Witness for C3: a coincident entry is dropped without effect, and a
distinct entry of positive mass has a nonzero effect. -/
theorem C3_skip_by_position_witness :
    (([((⟨2, 0, 0⟩ : Vec3), (5 : ℝ))] ++ (bodyA.position, 7) :: []).foldl
        (accStep bodyA.position (1 * 1)) 0 =
      ([((⟨2, 0, 0⟩ : Vec3), (5 : ℝ))] ++ []).foldl
        (accStep bodyA.position (1 * 1)) 0) ∧
    (bodyA.position ≠ ((⟨1, 0, 0⟩ : Vec3), (1 : ℝ)).1 ∧ (0 : ℝ) < 1) ∧
    accStep bodyA.position (1 * 1) 0 (⟨1, 0, 0⟩, 1) ≠ 0 :=
  ⟨(C3_skip_by_position bodyA 1 7 [(⟨2, 0, 0⟩, 5)] [] (⟨1, 0, 0⟩, 1)).1,
   ⟨by simp [bodyA, Body.new, Vec3.mk.injEq], by norm_num⟩,
   (C3_skip_by_position bodyA 1 7 [(⟨2, 0, 0⟩, 5)] [] (⟨1, 0, 0⟩, 1)).2
     (by simp [bodyA, Body.new, Vec3.mk.injEq]) (by norm_num) 0⟩

/-- Claim C7 (confirmed): on an empty body set `update_accelerations` returns
the empty set, and on a singleton it sets the lone body's acceleration to the
zero vector, for any softening factor. -/
theorem C7_degenerate_sets (ε : ℝ) (b : Body) :
    update_accelerations [] ε = [] ∧
    (update_accelerations [b] ε).map Body.acceleration = [0] := by
  constructor
  · rfl
  · simp [update_accelerations, accStep]

/-- Negating the argument of `length_squared` does not change it. -/
theorem Vec3.length_squared_neg (v : Vec3) :
    (-v).length_squared = v.length_squared := by
  simp only [Vec3.neg_def, Vec3.length_squared]
  ring

/-- Negating the argument of `length` does not change it. -/
theorem Vec3.length_neg (v : Vec3) : (-v).length = v.length := by
  unfold Vec3.length
  rw [Vec3.length_squared_neg]

/-- `normalize` commutes with negation. -/
theorem Vec3.normalize_neg (v : Vec3) : (-v).normalize = -v.normalize := by
  unfold Vec3.normalize
  rw [Vec3.length_neg]
  simp only [Vec3.neg_def, Vec3.mul_def]
  ext <;> simp

theorem Vec3.neg_sub' (a b : Vec3) : a - b = -(b - a) := by
  simp only [Vec3.sub_def, Vec3.neg_def]
  ext <;> simp

/-- The accelerations produced by `update_accelerations` on a two-body set
with distinct positions, in closed form. -/
theorem update_two_bodies (b0 b1 : Body) (ε : ℝ)
    (h : b0.position ≠ b1.position) :
    (update_accelerations [b0, b1] ε).map Body.acceleration =
      [(b1.position - b0.position).normalize *
        ((G * b1.mass) / ((b1.position - b0.position).length_squared + ε * ε)),
       (b0.position - b1.position).normalize *
        ((G * b0.mass) / ((b0.position - b1.position).length_squared + ε * ε))] := by
  unfold update_accelerations
  simp only [List.map_cons, List.map_nil, List.foldl_cons, List.foldl_nil,
    accStep_self, accStep_other b0.position b1.position _ _ _ h,
    accStep_other b1.position b0.position _ _ _ (Ne.symm h), Vec3.zero_add']

/-- Evaluation of `update_accelerations` on a unit mass at the origin and a
mass-2 body at distance 1, with zero softening: the acceleration magnitudes
are `2G` and `G` — they differ by the mass ratio. -/
theorem update_demoAC :
    (update_accelerations [bodyA, bodyC] 0).map Body.acceleration =
      [⟨2 * G, 0, 0⟩, ⟨-G, 0, 0⟩] := by
  norm_num [update_accelerations, bodyA, bodyC, Body.new, accStep,
    Vec3.normalize, Vec3.length, Vec3.length_squared, Vec3.sub_def,
    Vec3.mul_def, Vec3.add_def, Vec3.zero_x, Vec3.zero_y, Vec3.zero_z,
    Vec3.mk.injEq, Real.sqrt_one]
  ring

/-- C5 counterexample: for the two-body set `[bodyA, bodyC]` (masses 1 and 2,
non-coincident positions), the acceleration magnitudes after
`update_accelerations` are NOT equal: body 0 has magnitude `2G`, body 1 has
magnitude `G`. -/
theorem C5_counterexample :
    Vec3.length
        (((update_accelerations [bodyA, bodyC] 0).map Body.acceleration).getD 0 0) ≠
      Vec3.length
        (((update_accelerations [bodyA, bodyC] 0).map Body.acceleration).getD 1 0) := by
  rw [update_demoAC]
  show (⟨2 * G, 0, 0⟩ : Vec3).length ≠ (⟨-G, 0, 0⟩ : Vec3).length
  have e1 : (⟨2 * G, 0, 0⟩ : Vec3).length = 2 * G := by
    show Real.sqrt (2 * G * (2 * G) + 0 * 0 + 0 * 0) = 2 * G
    rw [show 2 * G * (2 * G) + 0 * 0 + 0 * 0 = 2 * G * (2 * G) from by ring]
    exact Real.sqrt_mul_self (by linarith [G_pos])
  have e2 : (⟨-G, 0, 0⟩ : Vec3).length = G := by
    show Real.sqrt (-G * -G + 0 * 0 + 0 * 0) = G
    rw [show -G * -G + 0 * 0 + 0 * 0 = G * G from by ring]
    exact Real.sqrt_mul_self (le_of_lt G_pos)
  rw [e1, e2]
  intro h
  have := G_pos
  linarith

/-- Claim C5 (amended): for a two-body system with non-coincident positions
and positive masses, the mass-weighted accelerations (the forces) are equal
and opposite — `m₀·a₀ + m₁·a₁ = 0` — and the two accelerations point in
exactly opposite directions, `a₁ = −(m₀/m₁)·a₀`; the acceleration magnitudes
themselves differ by the mass ratio, not the equal magnitudes of the
original claim. -/
theorem C5_forces_equal_opposite (b0 b1 : Body) (ε : ℝ)
    (h : b0.position ≠ b1.position) (h0 : 0 < b0.mass) (h1 : 0 < b1.mass) :
    ∃ a0 a1 : Vec3,
      (update_accelerations [b0, b1] ε).map Body.acceleration = [a0, a1] ∧
      b0.mass • a0 + b1.mass • a1 = 0 ∧
      a1 = -((b0.mass / b1.mass) • a0) := by
  refine ⟨_, _, update_two_bodies b0 b1 ε h, ?_, ?_⟩
  · rw [Vec3.neg_sub' b0.position b1.position, Vec3.normalize_neg,
      Vec3.length_squared_neg]
    simp only [Vec3.mul_def, Vec3.smul_def, Vec3.neg_def, Vec3.add_def,
      Vec3.zero_def, Vec3.mk.injEq]
    refine ⟨by ring, by ring, by ring⟩
  · rw [Vec3.neg_sub' b0.position b1.position, Vec3.normalize_neg,
      Vec3.length_squared_neg]
    simp only [Vec3.mul_def, Vec3.smul_def, Vec3.neg_def, Vec3.mk.injEq]
    have hm1 : b1.mass ≠ 0 := ne_of_gt h1
    have hd : b1.position - b0.position ≠ 0 :=
      fun hh => h ((Vec3.sub_eq_zero_iff' _ _).mp hh).symm
    have hS : (b1.position - b0.position).length_squared + ε * ε ≠ 0 :=
      ne_of_gt (add_pos_of_pos_of_nonneg (Vec3.length_squared_pos _ hd)
        (mul_self_nonneg ε))
    refine ⟨?_, ?_, ?_⟩ <;> field_simp <;> ring

/-- Witness for C5 at the concrete two-body set `[bodyA, bodyC]`. -/
theorem C5_forces_equal_opposite_witness :
    (bodyA.position ≠ bodyC.position ∧ 0 < bodyA.mass ∧ 0 < bodyC.mass) ∧
    (∃ a0 a1 : Vec3,
      (update_accelerations [bodyA, bodyC] 0).map Body.acceleration = [a0, a1] ∧
      bodyA.mass • a0 + bodyC.mass • a1 = 0 ∧
      a1 = -((bodyA.mass / bodyC.mass) • a0)) :=
  ⟨⟨by simp [bodyA, bodyC, Body.new, Vec3.mk.injEq], by norm_num [bodyA, Body.new],
    by norm_num [bodyC, Body.new]⟩,
   C5_forces_equal_opposite bodyA bodyC 0
     (by simp [bodyA, bodyC, Body.new, Vec3.mk.injEq])
     (by norm_num [bodyA, Body.new]) (by norm_num [bodyC, Body.new])⟩

/-- Claim C4 (confirmed): one iteration of the main loop is exactly
half-kick, then drift, then acceleration refresh, then half-kick, in that
order; and the state before step 0 is the initial body set with
accelerations established by one `update_accelerations` call on the initial
positions. -/
theorem C4_step_order (bodies : List Body) (dt ε : ℝ) (n : ℕ) :
    stepOnce dt ε bodies =
      kickHalf dt (update_accelerations (drift dt (kickHalf dt bodies)) ε) ∧
    simulate bodies dt ε 0 = update_accelerations bodies ε ∧
    simulate bodies dt ε (n + 1) =
      kickHalf dt
        (update_accelerations (drift dt (kickHalf dt (simulate bodies dt ε n))) ε) :=
  ⟨rfl, rfl, rfl⟩

/-- One loop iteration never changes any body's mass. -/
theorem stepOnce_mass (dt ε : ℝ) (l : List Body) :
    (stepOnce dt ε l).map Body.mass = l.map Body.mass := by
  unfold stepOnce update_accelerations
  rw [List.map_map, List.map_map, List.map_map, List.map_map]
  rfl

/-- Claim C6 (confirmed): `update_accelerations` leaves every body's mass,
position and velocity unchanged; the half-kick and drift phases leave every
body's mass unchanged; and mass is invariant across any number of
integration steps of a run. -/
theorem C6_frame_conditions (bodies : List Body) (ε dt : ℝ) (n : ℕ) :
    (update_accelerations bodies ε).map (fun b => (b.mass, b.position, b.velocity)) =
      bodies.map (fun b => (b.mass, b.position, b.velocity)) ∧
    (kickHalf dt bodies).map Body.mass = bodies.map Body.mass ∧
    (drift dt bodies).map Body.mass = bodies.map Body.mass ∧
    (simulate bodies dt ε n).map Body.mass = bodies.map Body.mass := by
  refine ⟨?_, ?_, ?_, ?_⟩
  · unfold update_accelerations
    rw [List.map_map]
    rfl
  · unfold kickHalf
    rw [List.map_map]
    rfl
  · unfold drift
    rw [List.map_map]
    rfl
  · induction n with
    | zero =>
        show (update_accelerations bodies ε).map Body.mass = _
        unfold update_accelerations
        rw [List.map_map]
        rfl
    | succ n ih =>
        show (stepOnce dt ε (simulate bodies dt ε n)).map Body.mass = _
        rw [stepOnce_mass, ih]

/-- Two exactly coincident bodies give each other no acceleration: the pair
is skipped by the position-equality guard, so the degenerate denominator is
never used. -/
theorem C8_coincident_pair_skipped (b0 b1 : Body) (ε : ℝ)
    (h : b0.position = b1.position) :
    (update_accelerations [b0, b1] ε).map Body.acceleration = [0, 0] := by
  unfold update_accelerations
  simp only [List.map_cons, List.map_nil, List.foldl_cons, List.foldl_nil,
    ← h, accStep_self]

/-- Witness for the amended C8 at a concrete coincident pair and a nonzero
softening factor. -/
theorem C8_coincident_pair_skipped_witness :
    bodyA.position = bodyE.position ∧
    (update_accelerations [bodyA, bodyE] 5).map Body.acceleration = [0, 0] :=
  ⟨rfl, C8_coincident_pair_skipped bodyA bodyE 5 rfl⟩

/-- C8 counterexample: two distinct bodies at exactly the same point with
softening factor 0 — the claimed `distance_sq + ε² == 0` division point —
produce the zero vector as both accelerations, not a division-by-zero-class
result: the pair is skipped before the division is reached. -/
theorem C8_counterexample :
    (update_accelerations [bodyA, bodyE] 0).map Body.acceleration = [0, 0] := by
  norm_num [update_accelerations, bodyA, bodyE, Body.new, accStep,
    Vec3.mk.injEq]

/-- Claim C9 (confirmed): integration is deterministic — two runs from equal
body sets with equal `dt` and equal softening factor agree after any equal
number of steps (in this exact-arithmetic embedding the per-body parallel
fan-out is a pure map, so the whole step function is a function of the
state). -/
theorem C9_deterministic (bs1 bs2 : List Body) (dt1 dt2 ε1 ε2 : ℝ) (n : ℕ)
    (hb : bs1 = bs2) (hdt : dt1 = dt2) (hε : ε1 = ε2) :
    simulate bs1 dt1 ε1 n = simulate bs2 dt2 ε2 n := by
  subst hb; subst hdt; subst hε; rfl

/-- Witness for C9 on a concrete run. -/
theorem C9_deterministic_witness :
    ([bodyA, bodyB] = [bodyA, bodyB] ∧ (1 : ℝ) = 1 ∧ (1 : ℝ) = 1) ∧
    simulate [bodyA, bodyB] 1 1 3 = simulate [bodyA, bodyB] 1 1 3 :=
  ⟨⟨rfl, rfl, rfl⟩, C9_deterministic [bodyA, bodyB] [bodyA, bodyB] 1 1 1 1 3 rfl rfl rfl⟩

/-- Pointwise: the generalized fold step agrees with the real one whenever
the normalization function agrees with `normalize` on nonzero vectors —
the vector being normalized is never zero. -/
theorem accStepGen_eq (f : Vec3 → Vec3)
    (hf : ∀ v : Vec3, v ≠ 0 → f v = Vec3.normalize v) (p : Vec3) (s : ℝ)
    (acc : Vec3) (e : Vec3 × ℝ) :
    accStepGen f p s acc e = accStep p s acc e := by
  unfold accStepGen accStep
  by_cases h : p = e.1
  · rw [if_pos h, if_pos h]
  · have hd : e.1 - p ≠ 0 :=
      fun hh => h ((Vec3.sub_eq_zero_iff' e.1 p).mp hh).symm
    simp only [if_neg h, hf (e.1 - p) hd]

/-- Fold-level version of `accStepGen_eq`. -/
theorem foldl_accStepGen_eq (f : Vec3 → Vec3)
    (hf : ∀ v : Vec3, v ≠ 0 → f v = Vec3.normalize v) (p : Vec3) (s : ℝ) :
    ∀ (l : List (Vec3 × ℝ)) (init : Vec3),
      l.foldl (accStepGen f p s) init = l.foldl (accStep p s) init
  | [], _ => rfl
  | e :: l, init => by
      rw [List.foldl_cons, List.foldl_cons, accStepGen_eq f hf,
        foldl_accStepGen_eq f hf p s l]

/-- Claim C10 (confirmed): `normalize` is only ever applied to the difference
of two distinct positions, so the value of the normalization function on the
zero vector is never consulted — any function agreeing with `normalize` away
from zero yields identical results — and the length it divides by is nonzero
for every such argument. -/
theorem C10_normalize_guarded (bodies : List Body) (ε : ℝ) (f : Vec3 → Vec3)
    (hf : ∀ v : Vec3, v ≠ 0 → f v = Vec3.normalize v) :
    update_accelerations_gen f bodies ε = update_accelerations bodies ε ∧
    (∀ v : Vec3, v ≠ 0 → Vec3.length v ≠ 0) := by
  constructor
  · unfold update_accelerations_gen update_accelerations
    simp only [foldl_accStepGen_eq f hf]
  · exact fun v hv => ne_of_gt (Vec3.length_pos v hv)

/-- Witness for C10: instantiated at `normalize` itself on a body set that
contains exactly coincident bodies, with zero softening. -/
theorem C10_normalize_guarded_witness :
    (∀ v : Vec3, v ≠ 0 → Vec3.normalize v = Vec3.normalize v) ∧
    (update_accelerations_gen Vec3.normalize [bodyA, bodyE] 0 =
        update_accelerations [bodyA, bodyE] 0 ∧
      (∀ v : Vec3, v ≠ 0 → Vec3.length v ≠ 0)) :=
  ⟨fun _ _ => rfl,
   C10_normalize_guarded [bodyA, bodyE] 0 Vec3.normalize (fun _ _ => rfl)⟩

end NBody
